import Mathlib

/-!
Verification of the temporal geospatial query engine of the civilisation-map
repository. The JavaScript source is shallowly embedded: JS numbers appear as
`ℚ` (coordinates, areas) and `ℤ` (years, population counts), JS objects keyed
by strings appear as insertion-ordered association lists, and functions that
can throw a `TypeError` on malformed input return `Except Unit`.
-/

namespace CivMap

/-! ### Geometry kernel (src/js/utils.js)

A point is a `(lon, lat)` pair. GeoJSON geometry as the code receives it can
be `null`/`undefined` (`jsNull`), a `Polygon` (list of rings), a
`MultiPolygon` (list of polygons, each a list of rings), or an object whose
`type` is neither (`other`), e.g. a `LineString`.
-/

abbrev Pt : Type := ℚ × ℚ

inductive GeomInput : Type where
  | jsNull : GeomInput
  | poly (rings : List (List Pt)) : GeomInput
  | multi (parts : List (List (List Pt))) : GeomInput
  | other : GeomInput
deriving DecidableEq

/-- The vertex pairs visited by the JS loop
`for (let i = 0, j = polygon.length - 1; i < polygon.length; j = i++)`:
the pairs `(v_i, v_j)` with `j = i - 1 mod n` (and `j = n - 1` for `i = 0`).
`ring.rotate (ring.length - 1)` is exactly `[v_{n-1}, v_0, …, v_{n-2}]`,
so zipping gives those pairs in order. -/
def pipPairs (ring : List Pt) : List (Pt × Pt) :=
  ring.zip (ring.rotate (ring.length - 1))

/-- The toggle test of one iteration of `pointInPolygon` (utils.js:121-127):
`((yi > y) !== (yj > y)) && (x < (xj - xi) * (y - yi) / (yj - yi) + xi)`.
The division is guarded by the first conjunct (`yi ≠ yj` there), so the
`ℚ`-convention `q / 0 = 0` is never relied on. -/
def pipToggle (p : Pt) (e : Pt × Pt) : Bool :=
  (decide (e.1.2 > p.2) != decide (e.2.2 > p.2)) &&
    decide (p.1 < (e.2.1 - e.1.1) * (p.2 - e.1.2) / (e.2.2 - e.1.2) + e.1.1)

/-- Even-odd ray casting test of `pointInPolygon(point, polygon)`
(utils.js:117-130). -/
def pointInPolygon (p : Pt) (polygon : List Pt) : Bool :=
  (pipPairs polygon).foldl (fun inside e => if pipToggle p e then !inside else inside) false

/-- Squared distance from `p` to the segment `[a, b]`, mirroring the body of
the loop of `distanceToPolygonEdge` (utils.js:133-159).  The JS code computes
`Math.sqrt` of this value; since the square root is only ever compared with
the (positive) tolerance, the embedding keeps the radicand and compares
against the squared tolerance, which is equivalent. -/
def segDistSq (p a b : Pt) : ℚ :=
  let dx := b.1 - a.1
  let dy := b.2 - a.2
  if dx = 0 ∧ dy = 0 then (p.1 - a.1) ^ 2 + (p.2 - a.2) ^ 2
  else
    let t := max 0 (min 1 (((p.1 - a.1) * dx + (p.2 - a.2) * dy) / (dx * dx + dy * dy)))
    (p.1 - (a.1 + t * dx)) ^ 2 + (p.2 - (a.2 + t * dy)) ^ 2

/-- Squared-distance version of `distanceToPolygonEdge` (utils.js:133-159).
The JS loop pairs `polygon[i]` with `polygon[(i + 1) % polygon.length]`,
i.e. zips the ring with its forward rotation; `minDist` starts at
`Infinity`, modelled by `⊤ : WithTop ℚ`. -/
def distSqToPolygonEdge (p : Pt) (polygon : List Pt) : WithTop ℚ :=
  (polygon.zip (polygon.rotate 1)).foldl
    (fun m e => min m (some (segDistSq p e.1 e.2))) ⊤

/-- Squared-distance version of `distanceToGeometryEdge` (utils.js:162-175).
Accessing `.type` on `null` throws; `coordinates[0]` of an empty `Polygon`
coordinate array is `undefined`, and `distanceToPolygonEdge` then throws on
`undefined.length`; same for an empty part of a `MultiPolygon`. -/
def distSqToGeometryEdge (p : Pt) : GeomInput → Except Unit (WithTop ℚ)
  | .jsNull => .error ()
  | .poly [] => .error ()
  | .poly (r :: _) => .ok (distSqToPolygonEdge p r)
  | .multi parts =>
      parts.foldl
        (fun acc part => do
          let m ← acc
          match part with
          | [] => .error ()
          | r :: _ => pure (min m (distSqToPolygonEdge p r)))
        (.ok ⊤)
  | .other => .ok ⊤

/-- The exact (tolerance-free) containment pass of `pointInGeometry`
(utils.js:181-191): test the outer ring of the polygon, or each part's outer
ring with early exit on the first hit.  Throwing cases as in
`distSqToGeometryEdge`. -/
def pointInGeometryExact (p : Pt) : GeomInput → Except Unit Bool
  | .jsNull => .error ()
  | .poly [] => .error ()
  | .poly (r :: _) => .ok (pointInPolygon p r)
  | .multi parts =>
      parts.foldl
        (fun acc part => do
          let hit ← acc
          if hit then pure true
          else
            match part with
            | [] => .error ()
            | r :: _ => pure (pointInPolygon p r))
        (.ok false)
  | .other => .ok false

/-- `pointInGeometry(lon, lat, geometry, tolerance = 0)` (utils.js:177-203).
The tolerance branch compares the minimal edge distance with `tolerance`;
here the squared distance is compared with `tolerance²`, equivalent since
the branch only runs for `tolerance > 0`. -/
def pointInGeometryE (lon lat : ℚ) (g : GeomInput) (tolerance : ℚ) : Except Unit Bool := do
  let p : Pt := (lon, lat)
  let hit ← pointInGeometryExact p g
  if hit then pure true
  else if tolerance > 0 then
    let dsq ← distSqToGeometryEdge p g
    if dsq ≤ (some (tolerance * tolerance) : WithTop ℚ) then pure true else pure false
  else pure false

/-- Signed shoelace sum of `polygonArea(coords)` (utils.js:206-212); the JS
loop visits the same `(i, j = i - 1 mod n)` pairs as `pointInPolygon`. -/
def polygonArea (coords : List Pt) : ℚ :=
  ((coords.zip (coords.rotate (coords.length - 1))).foldl
    (fun a e => a + (e.2.1 + e.1.1) * (e.2.2 - e.1.2)) 0) / 2

/-- Mean of the ring's vertices, as in the tail of `getCentroid`
(utils.js:230-241); `none` models the `!coords || coords.length === 0`
early return.  The JS result object `{lat, lng}` is modelled as the pair
`(lng, lat)`. -/
def centroidOfCoords : Option (List Pt) → Option Pt
  | none => none
  | some [] => none
  | some (c :: cs) =>
      some (((c :: cs).map Prod.fst).sum / ((c :: cs).length : ℚ),
            ((c :: cs).map Prod.snd).sum / ((c :: cs).length : ℚ))

/-- The largest-part selection of `getCentroid` for `MultiPolygon`
(utils.js:219-229): scan the parts, keeping the outer ring with the largest
`|polygonArea|` (strictly greater than the running maximum, which starts at
`0`).  An empty part makes `polygonArea(poly[0] = undefined)` throw. -/
def largestOuterRing (parts : List (List (List Pt))) : Except Unit (Option (List Pt)) := do
  let best ← parts.foldl
    (fun acc part => do
      let b ← acc
      match part with
      | [] => .error ()
      | r :: _ =>
          let area := |polygonArea r|
          if area > b.1 then pure (area, some r) else pure b)
    (.ok ((0 : ℚ), (none : Option (List Pt))))
  pure best.2

/-- `getCentroid(geometry)` (utils.js:215-242).  On `null`/`undefined` the
`.type` access throws; an unknown geometry type leaves `coords` undefined and
returns `null`; `Polygon` takes `coordinates[0]` (possibly `undefined`, also
giving `null`). -/
def getCentroidE : GeomInput → Except Unit (Option Pt)
  | .jsNull => .error ()
  | .poly rings => .ok (centroidOfCoords rings.head?)
  | .multi parts => do
      let coords ← largestOuterRing parts
      pure (centroidOfCoords coords)
  | .other => .ok (centroidOfCoords none)

/-- Bounding box of a vertex list, as the claim defines it: the min/max over
all vertices' longitudes and latitudes.  `none` when there is no vertex. -/
structure BBox : Type where
  minLon : ℚ
  maxLon : ℚ
  minLat : ℚ
  maxLat : ℚ
deriving DecidableEq

/-- One folding step of the bounding-box computation. -/
def bboxStep (bb : BBox) (w : Pt) : BBox :=
  ⟨min bb.minLon w.1, max bb.maxLon w.1, min bb.minLat w.2, max bb.maxLat w.2⟩

def bboxOf : List Pt → Option BBox
  | [] => none
  | v :: vs => some (vs.foldl bboxStep ⟨v.1, v.1, v.2, v.2⟩)

/-- Indicator of a Boolean in `ZMod 2`, used to count ray-crossing parity. -/
def boolZ (b : Bool) : ZMod 2 := if b then 1 else 0

/-- All vertices of a geometry (outer rings and holes alike). -/
def vertsOf : GeomInput → List Pt
  | .jsNull => []
  | .poly rings => rings.flatten
  | .multi parts => (parts.map List.flatten).flatten
  | .other => []

/-- Does every part of a `MultiPolygon` have at least its outer ring?  (A
well-formedness condition; GeoJSON forbids empty parts.)  Trivial for the
other constructors. -/
def noEmptyPart : GeomInput → Prop
  | .multi parts => ∀ part ∈ parts, part ≠ []
  | _ => True

/-- JS object property access `obj[key]` over an insertion-ordered
association list (`none` = `undefined`). -/
def jsGet {α β : Type} [DecidableEq α] : List (α × β) → α → Option β
  | [], _ => none
  | e :: t, k => if e.1 = k then some e.2 else jsGet t k

/-! ### Temporal attribute resolver (src/js/utils.js:335-376)

A city as the engine holds it: `populations` is the year-keyed JS object
(modelled as an association list; the loader guarantees it is present) plus
the stored `minYear` property. -/

structure City : Type where
  populations : List (ℤ × ℤ)
  minYear : ℤ
deriving DecidableEq

/-- Result object of `getPopulationForYear`: `{pop, year, status, gap?}`
(the `recorded` branch carries no `gap` field). -/
structure PopResult : Type where
  pop : ℤ
  year : ℤ
  status : String
  gap : Option ℤ
deriving DecidableEq

/-- One step of the JS loop
`for (const y of years) { if (y < year) pastYear = y; if (y > year && futureYear === null) futureYear = y; }`. -/
def pastFutureStep (year : ℤ) (acc : Option ℤ × Option ℤ) (y : ℤ) : Option ℤ × Option ℤ :=
  (if y < year then some y else acc.1,
   if y > year ∧ acc.2 = none then some y else acc.2)

/-- `getPopulationForYear(city, year)` (utils.js:335-376).  `Object.keys`
sorted ascending is modelled by `insertionSort`; `Math.pow(0.999, n)` by
`(999/1000)^n` and `Math.floor` by `Int.floor`. -/
def getPopulationForYear (city : City) (year : ℤ) : Option PopResult :=
  let pops := city.populations
  let years := (pops.map Prod.fst).insertionSort (· ≤ ·)
  if year < city.minYear then none
  else
    match jsGet pops year with
    | some p => some ⟨p, year, "recorded", none⟩
    | none =>
      let pf := years.foldl (pastFutureStep year) (none, none)
      match pf.1 with
      | some pastYear =>
          let gap := year - pastYear
          let status :=
            if gap ≤ 50 then "interpolated" else if gap ≤ 200 then "estimated" else "projected"
          let basePop := (jsGet pops pastYear).getD 0
          let pop :=
            if gap > 500 then
              max 1000 (Int.floor ((basePop : ℚ) * ((999 : ℚ) / 1000) ^ (gap - 500).toNat))
            else basePop
          some ⟨pop, pastYear, status, some gap⟩
      | none =>
          match pf.2 with
          | some futureYear =>
              let gap := futureYear - year
              let pop := Int.floor ((((jsGet pops futureYear).getD 0 : ℤ) : ℚ) * (1 / 2))
              some ⟨max 500 pop, futureYear, "prehistoric", some gap⟩
          | none => none

/-! ### World statistics interpolation (src/js/utils.js:386-406) -/

structure WorldStat : Type where
  year : ℤ
  population : ℚ
  gdp_per_capita : ℚ
deriving DecidableEq

/-- `getWorldStatsForYear(year)` (utils.js:386-406): bracketing samples with
linear interpolation, `Math.round` modelled by `round : ℚ → ℤ`. -/
def getWorldStatsForYear (worldStats : List WorldStat) (year : ℤ) : Option WorldStat :=
  if worldStats = [] then none
  else
    let pf := worldStats.foldl
      (fun (acc : Option WorldStat × Option WorldStat) s =>
        (if s.year ≤ year then some s else acc.1,
         if year ≤ s.year ∧ acc.2 = none then some s else acc.2))
      (none, none)
    match pf.1, pf.2 with
    | none, none => none
    | none, some a => some a
    | some b, none => some b
    | some b, some a =>
        if b.year = a.year then some b
        else
          let t : ℚ := ((year - b.year : ℤ) : ℚ) / ((a.year - b.year : ℤ) : ℚ)
          some ⟨year,
            ((round (b.population + t * (a.population - b.population)) : ℤ) : ℚ),
            ((round (b.gdp_per_capita + t * (a.gdp_per_capita - b.gdp_per_capita)) : ℤ) : ℚ)⟩

/-! ### Polity records and visibility filters -/

/-- JS `name.startsWith("(")`: the first character of the name is `(`. -/
def startsParen (s : String) : Bool :=
  decide (s.data.head? = some (Char.ofNat 40))

/-- JS `name.endsWith(")")`: the last character of the name is `)`. -/
def endsParen (s : String) : Bool :=
  decide (s.data.getLast? = some (Char.ofNat 41))

/-- A polity fragment's feature: `properties.Name`, `FromYear`, `ToYear`,
`Area` (absent modelled as `none`; `Area || 0` is `Area.getD 0`), and its
geometry. -/
structure Polity : Type where
  Name : String
  FromYear : ℤ
  ToYear : ℤ
  Area : Option ℚ
  geometry : GeomInput
deriving DecidableEq

/-- The visibility filter of `updateMap` (map.js:125-132): drop
parenthesis-wrapped composite names, keep `FromYear <= year <= ToYear`. -/
def updateMapVisible (year : ℤ) (allPolities : List Polity) : List Polity :=
  allPolities.filter fun f =>
    if startsParen f.Name && endsParen f.Name then false
    else decide (f.FromYear ≤ year) && decide (year ≤ f.ToYear)

/-- The visibility filter of the metrics precompute pass `preloadGraphData`
(graph panel module, `processChunk`): only the year-range test. -/
def preloadVisible (year : ℤ) (allPolities : List Polity) : List Polity :=
  allPolities.filter fun f => decide (f.FromYear ≤ year) && decide (year ≤ f.ToYear)

/-! ### Identity and continuity tracker -/

/-- The founding-years cache built in `loadAllData` (map.js:615-625): skip
parenthesis-wrapped names, keep the smallest `FromYear` seen per name.  The
JS object is an insertion-ordered association list; `fyUpdate` is
`if (!(name in obj) || fromYear < obj[name]) obj[name] = fromYear`. -/
def fyUpdate (m : List (String × ℤ)) (name : String) (fy : ℤ) : List (String × ℤ) :=
  match jsGet m name with
  | none => m ++ [(name, fy)]
  | some old => if fy < old then m.map (fun e => if e.1 = name then (e.1, fy) else e) else m

def buildFoundingYears (allPolities : List Polity) : List (String × ℤ) :=
  allPolities.foldl
    (fun m p =>
      if startsParen p.Name && endsParen p.Name then m
      else fyUpdate m p.Name p.FromYear)
    []

/-- One interval of the location-history output (utils.js:1177-1185); the
UI-only `displayName`, `color` and `polity` back-reference fields are
omitted. -/
structure HistEntry : Type where
  name : String
  fromYear : ℤ
  toYear : ℤ
  area : Option ℚ
deriving DecidableEq

/-- The collection loop of `getLocationHistory` (utils.js:1166-1188) over the
already-sorted fragment list: skip names starting with `(`, test containment
at tolerance 0 (propagating a thrown `TypeError`), and de-duplicate by the
`name_from_to` key. -/
def collectHistory (lon lat : ℚ) :
    List Polity → List (String × ℤ × ℤ) → Except Unit (List HistEntry)
  | [], _ => .ok []
  | p :: rest, seen =>
      if startsParen p.Name then collectHistory lon lat rest seen
      else do
        let hit ← pointInGeometryE lon lat p.geometry 0
        if hit then
          if (p.Name, p.FromYear, p.ToYear) ∈ seen then collectHistory lon lat rest seen
          else do
            let tail ← collectHistory lon lat rest ((p.Name, p.FromYear, p.ToYear) :: seen)
            pure (⟨p.Name, p.FromYear, p.ToYear, p.Area⟩ :: tail)
        else collectHistory lon lat rest seen

/-- The merge loop of `getLocationHistory` (utils.js:1195-1205): extend the
previous entry when names match and `entry.fromYear <= last.toYear + 5`,
taking the max `toYear`; otherwise start a new entry. -/
def mergeStep (merged : List HistEntry) (entry : HistEntry) : List HistEntry :=
  match merged.getLast? with
  | none => [entry]
  | some last =>
      if last.name = entry.name ∧ entry.fromYear ≤ last.toYear + 5 then
        merged.dropLast ++ [{ last with toYear := max last.toYear entry.toYear }]
      else merged ++ [entry]

/-- `getLocationHistory(lon, lat)` (utils.js:1157-1208) over an explicit
fragment collection: sort by `FromYear` (JS `Array.prototype.sort` is
stable, as is `insertionSort`), collect containing fragments, sort the
result by `fromYear` again, then merge. -/
def getLocationHistory (lon lat : ℚ) (allPolities : List Polity) :
    Except Unit (List HistEntry) := do
  let sorted := allPolities.insertionSort (fun a b => a.FromYear ≤ b.FromYear)
  let hist ← collectHistory lon lat sorted []
  let hist2 := hist.insertionSort (fun a b => a.fromYear ≤ b.fromYear)
  pure (hist2.foldl mergeStep [])

/-! ### Aggregate metrics engine (graph panel module, `calculateMetricsFast`) -/

structure CivEntry : Type where
  area : ℚ
  fromYear : ℤ
deriving DecidableEq

/-- One iteration of the `civData` accumulation (graph panel module,
lines 16-27): create the entry `{area: 0, fromYear: p.FromYear}` if the name
is new, then `area += Area || 0` and `fromYear = min(fromYear, FromYear)`.
The `color` field (a pure function of the name) is omitted. -/
def civStep (m : List (String × CivEntry)) (p : Polity) : List (String × CivEntry) :=
  let m2 : List (String × CivEntry) :=
    match jsGet m p.Name with
    | none => m ++ [(p.Name, ⟨0, p.FromYear⟩)]
    | some _ => m
  m2.map fun e =>
    if e.1 = p.Name then (e.1, ⟨e.2.area + p.Area.getD 0, min e.2.fromYear p.FromYear⟩) else e

structure Totals : Type where
  population : ℚ
  civilizations : ℕ
  landArea : ℚ
  cities : ℕ
  urbanPop : ℤ
  gdpPerCapita : ℚ
  largestEmpire : ℚ
  avgAge : ℚ
deriving DecidableEq

structure Metrics : Type where
  totals : Totals
  civs : List (String × CivEntry)
deriving DecidableEq

/-- `calculateMetricsFast(year, visiblePolities)` (graph panel module,
lines 12-59).  `state.worldStats` and `state.allCities` are passed
explicitly.  `Math.max(...areas)` over the non-empty entry list is a left
fold of `max`; the empty case yields `0` as in the JS ternary. -/
def calculateMetricsFast (worldStats : List WorldStat) (allCities : List City)
    (year : ℤ) (visiblePolities : List Polity) : Metrics :=
  let stats := getWorldStatsForYear worldStats year
  let civData := visiblePolities.foldl civStep []
  let totalArea := (civData.map (fun e => e.2.area)).sum
  let largestArea :=
    match civData.map (fun e => e.2.area) with
    | [] => 0
    | a :: as => as.foldl max a
  let avgAge : ℚ :=
    if 0 < civData.length then
      ((civData.map (fun e => ((year : ℚ) - (e.2.fromYear : ℚ)))).sum) / (civData.length : ℚ)
    else 0
  let cityAgg := allCities.foldl
    (fun (acc : ℕ × ℤ) city =>
      match getPopulationForYear city year with
      | some pd => (acc.1 + 1, acc.2 + pd.pop)
      | none => acc)
    (0, 0)
  { totals :=
      { population := match stats with | some s => s.population | none => 0
        civilizations := civData.length
        landArea := totalArea
        cities := cityAgg.1
        urbanPop := cityAgg.2
        gdpPerCapita := match stats with | some s => s.gdp_per_capita | none => 0
        largestEmpire := largestArea
        avgAge := avgAge }
    civs := civData }

/-! ### City dataset loading (map.js:640-655) -/

/-- A raw city feature before filtering: the `populations` object may be
missing (`none`). -/
structure RawCity : Type where
  populations : Option (List (ℤ × ℤ))
  minYear : ℤ
deriving DecidableEq

/-- `Math.max(...values)`: `none` stands for the `-Infinity` of the empty
spread. -/
def jsMaxInt : List ℤ → Option ℤ
  | [] => none
  | x :: xs => some (xs.foldl max x)

/-- The filter predicate of the cities loader (map.js:645-650):
`if (!pops) return false; return Math.max(...Object.values(pops)) >= 100000`. -/
def keepCity (r : RawCity) : Bool :=
  match r.populations with
  | none => false
  | some l =>
      match jsMaxInt (l.map Prod.snd) with
      | none => false
      | some m => decide ((100000 : ℤ) ≤ m)

/-- The loaded engine collection `state.allCities`: the kept raw features
(each of which necessarily has its `populations` object, extracted here). -/
def loadCities (src : List RawCity) : List City :=
  (src.filter keepCity).map fun r => ⟨r.populations.getD [], r.minYear⟩

/-! ### Spec-side definitions for the claims (written from the spec's words,
for comparison with the code-derived definitions above) -/

/-- First-occurrence list of the distinct names of a visible fragment set. -/
def visNames (vs : List Polity) : List String :=
  vs.foldl (fun acc p => if p.Name ∈ acc then acc else acc ++ [p.Name]) []

/-- Sum of `Area || 0` over the visible fragments of one name. -/
def sumAreaFor (vs : List Polity) (name : String) : ℚ :=
  ((vs.filter (fun p => p.Name = name)).map (fun p => p.Area.getD 0)).sum

/-- `Math.max`-style fold with a default for the empty list. -/
def jsMinFold : List ℤ → ℤ
  | [] => 0
  | x :: xs => xs.foldl min x

/-- Minimum `FromYear` over the visible fragments of one name (`0` when the
name does not occur, a case never used by the theorems). -/
def minFromFor (vs : List Polity) (name : String) : ℤ :=
  jsMinFold ((vs.filter (fun p => p.Name = name)).map (fun p => p.FromYear))

/-- Modelled from the spec: the claimed `totals.avgAge` — the mean, over the
distinct visible names, of `year - foundingYear(name)` where
`foundingYear` is the cached minimum `validFrom` over every fragment of the
full dataset (map.js:615-625). -/
def claimAvgAge (year : ℤ) (allPolities : List Polity) (vs : List Polity) : ℚ :=
  ((visNames vs).map
    (fun n => (year : ℚ) - (((jsGet (buildFoundingYears allPolities) n).getD 0 : ℤ) : ℚ))).sum
    / ((visNames vs).length : ℚ)

/-! ### Concrete inputs used by counterexamples and witnesses -/

/-- A unit square around the origin, used as a concrete containing ring. -/
def sqRing : List Pt := [(-1, -1), (1, -1), (1, 1), (-1, 1)]

def sqGeom : GeomInput := .poly [sqRing]

/-- Scenario A region: `FromYear=-500, ToYear=100, Area=2,000,000`. -/
def scenarioRegion : Polity := ⟨"Test Empire", -500, 100, some 2000000, sqGeom⟩

/-- Scenario B city: `populations={-100: 5000, 200: 20000}`, `minYear=-100`. -/
def scenarioCity : City := ⟨[(-100, 5000), (200, 20000)], -100⟩

/-- Scenario D fragments: "Kingdom X" over `[100,150]` and `[153,200]`. -/
def kingdomX1 : Polity := ⟨"Kingdom X", 100, 150, some 1000, sqGeom⟩

def kingdomX2 : Polity := ⟨"Kingdom X", 153, 200, some 1000, sqGeom⟩

/-- A parenthesis-wrapped composite wrapper record visible over `[0,100]`. -/
def parenPolity : Polity := ⟨"(Wrapped Empire)", 0, 100, some 5, sqGeom⟩

/-- Two fragments of one polity: an early one and a much later one, so that
the cached founding year and the visible-fragment minimum differ at year 50. -/
def fragEarly : Polity := ⟨"Aksum", -1000, -500, some 100, sqGeom⟩

def fragLate : Polity := ⟨"Aksum", 0, 100, some 100, sqGeom⟩

/-! ## Helper lemmas -/

theorem foldl_pastFutureStep_fst (year : ℤ) (ys : List ℤ) (acc : Option ℤ × Option ℤ) :
    (ys.foldl (pastFutureStep year) acc).1 =
      ys.foldl (fun a y => if y < year then some y else a) acc.1 := by
  induction ys generalizing acc with
  | nil => rfl
  | cons y t ih => simpa [pastFutureStep] using ih _

theorem foldl_past_untouched (year : ℤ) (ys : List ℤ) (init : Option ℤ)
    (h : ∀ k ∈ ys, ¬k < year) :
    ys.foldl (fun a y => if y < year then some y else a) init = init := by
  induction ys generalizing init with
  | nil => rfl
  | cons y t ih =>
      have hy : ¬y < year := h y (List.mem_cons_self y t)
      simp only [List.foldl_cons, if_neg hy]
      exact ih init fun k hk => h k (List.mem_cons_of_mem _ hk)

theorem foldl_past_max (year py : ℤ) (ys : List ℤ) (hsort : ys.Sorted (· ≤ ·))
    (hmem : py ∈ ys) (hlt : py < year) (hmax : ∀ k ∈ ys, k < year → k ≤ py) :
    ∀ init, ys.foldl (fun a y => if y < year then some y else a) init = some py := by
  induction ys with
  | nil => exact absurd hmem (List.not_mem_nil py)
  | cons a t ih =>
      intro init
      by_cases hmemt : py ∈ t
      · have hst : t.Sorted (· ≤ ·) := hsort.of_cons
        have hmx : ∀ k ∈ t, k < year → k ≤ py := fun k hk => hmax k (List.mem_cons_of_mem _ hk)
        simpa using ih hst hmemt hmx _
      · have hpa : py = a := by
          rcases List.mem_cons.1 hmem with h | h
          · exact h
          · exact absurd h hmemt
        subst hpa
        have htnone : ∀ k ∈ t, ¬k < year := by
          intro k hk hklt
          have h1 : k ≤ py := hmax k (List.mem_cons_of_mem _ hk) hklt
          have h2 : py ≤ k := (List.sorted_cons.1 hsort).1 k hk
          exact hmemt (le_antisymm h1 h2 ▸ hk)
        simp only [List.foldl_cons, if_pos hlt]
        exact foldl_past_untouched year t (some py) htnone

theorem jsGet_append {β : Type} (m l2 : List (String × β)) (k : String) :
    jsGet (m ++ l2) k =
      match jsGet m k with
      | some v => some v
      | none => jsGet l2 k := by
  induction m with
  | nil => simp [jsGet]
  | cons e t ih =>
      by_cases h : e.1 = k
      · simp [jsGet, h]
      · simpa [jsGet, h] using ih

theorem jsGet_map_set (m : List (String × ℤ)) (k : String) (fy old : ℤ)
    (h : jsGet m k = some old) :
    jsGet (m.map (fun e => if e.1 = k then (e.1, fy) else e)) k = some fy := by
  induction m with
  | nil => simp [jsGet] at h
  | cons e t ih =>
      by_cases hk : e.1 = k
      · simp [jsGet, hk]
      · simp only [jsGet, if_neg hk] at h
        simpa [jsGet, hk] using ih h

theorem jsGet_map_set_ne (m : List (String × ℤ)) (k k2 : String) (fy : ℤ)
    (h : k2 ≠ k) :
    jsGet (m.map (fun e => if e.1 = k then (e.1, fy) else e)) k2 = jsGet m k2 := by
  induction m with
  | nil => simp [jsGet]
  | cons e t ih =>
      by_cases hk : e.1 = k
      · have hk2 : ¬e.1 = k2 := fun hc => h ((hc.symm.trans hk).symm ▸ rfl)
        have hk2b : ¬k = k2 := fun hc => h hc.symm
        simp only [List.map_cons, if_pos hk, jsGet, if_neg hk2b, if_neg hk2]
        exact ih
      · simp only [List.map_cons, if_neg hk, jsGet]
        by_cases hk2 : e.1 = k2
        · simp [hk2]
        · simpa [hk2] using ih

theorem fyUpdate_jsGet_eq (m : List (String × ℤ)) (k : String) (fy : ℤ) :
    jsGet (fyUpdate m k fy) k =
      some (match jsGet m k with | none => fy | some old => min old fy) := by
  unfold fyUpdate
  cases h : jsGet m k with
  | none =>
      dsimp only
      rw [jsGet_append]
      simp [h, jsGet]
  | some old =>
      dsimp only
      by_cases hlt : fy < old
      · rw [if_pos hlt, jsGet_map_set m k fy old h]
        simp [min_eq_right (le_of_lt hlt)]
      · rw [if_neg hlt, h]
        simp [min_eq_left (not_lt.1 hlt)]

theorem fyUpdate_jsGet_ne (m : List (String × ℤ)) (k k2 : String) (fy : ℤ)
    (h : k2 ≠ k) :
    jsGet (fyUpdate m k fy) k2 = jsGet m k2 := by
  unfold fyUpdate
  cases hm : jsGet m k with
  | none =>
      dsimp only
      rw [jsGet_append]
      have hne : ¬k = k2 := fun hc => h hc.symm
      cases h2 : jsGet m k2 with
      | none => simp [jsGet, hne]
      | some v => simp
  | some old =>
      dsimp only
      by_cases hlt : fy < old
      · rw [if_pos hlt]
        exact jsGet_map_set_ne m k k2 fy h
      · rw [if_neg hlt]

theorem foldl_min_le_init (xs : List ℤ) : ∀ x : ℤ, xs.foldl min x ≤ x := by
  induction xs with
  | nil => intro x; simp
  | cons a t ih =>
      intro x
      calc (a :: t).foldl min x = t.foldl min (min x a) := by simp
        _ ≤ min x a := ih _
        _ ≤ x := min_le_left _ _

theorem foldl_min_le_mem (xs : List ℤ) : ∀ (x y : ℤ), y ∈ xs → xs.foldl min x ≤ y := by
  induction xs with
  | nil => intro x y hy; simp at hy
  | cons a t ih =>
      intro x y hy
      rcases List.mem_cons.1 hy with h | h
      · subst h
        calc (y :: t).foldl min x = t.foldl min (min x y) := by simp
          _ ≤ min x y := foldl_min_le_init t _
          _ ≤ y := min_le_right _ _
      · simpa using ih (min x a) y h

theorem foldl_min_attained (xs : List ℤ) : ∀ x : ℤ, xs.foldl min x = x ∨ xs.foldl min x ∈ xs := by
  induction xs with
  | nil => intro x; left; rfl
  | cons a t ih =>
      intro x
      have step : (a :: t).foldl min x = t.foldl min (min x a) := by simp
      rcases ih (min x a) with h | h
      · rcases min_choice x a with hc | hc
        · left; rw [step, h, hc]
        · right; rw [step, h, hc]; exact List.mem_cons_self a t
      · right; rw [step]; exact List.mem_cons_of_mem a h

theorem jsMinFold_concat (l : List ℤ) (a : ℤ) (h : l ≠ []) :
    jsMinFold (l ++ [a]) = min (jsMinFold l) a := by
  cases l with
  | nil => exact absurd rfl h
  | cons x xs => simp [jsMinFold]

theorem jsMinFold_le (l : List ℤ) (y : ℤ) (hy : y ∈ l) : jsMinFold l ≤ y := by
  cases l with
  | nil => simp at hy
  | cons x xs =>
      rcases List.mem_cons.1 hy with h | h
      · subst h; exact foldl_min_le_init xs y
      · exact foldl_min_le_mem xs x y h

theorem jsMinFold_mem (l : List ℤ) (h : l ≠ []) : jsMinFold l ∈ l := by
  cases l with
  | nil => exact absurd rfl h
  | cons x xs =>
      rcases foldl_min_attained xs x with h2 | h2
      · rw [jsMinFold, h2]; exact List.mem_cons_self x xs
      · exact List.mem_cons_of_mem x (by rw [jsMinFold]; exact h2)

/-- Characterisation of the founding-years cache: for a non-parenthesised
name it holds exactly the minimum `FromYear` over the fragments of that
name, and no entry otherwise. -/
theorem buildFoundingYears_lookup (ps : List Polity) (name : String)
    (hnp : (startsParen name && endsParen name) = false) :
    jsGet (buildFoundingYears ps) name =
      if ps.filter (fun p => p.Name = name) = [] then none
      else some (minFromFor ps name) := by
  induction ps using List.reverseRecOn with
  | nil => simp [buildFoundingYears, jsGet]
  | append_singleton l p ih =>
      have hstep : buildFoundingYears (l ++ [p]) =
          if startsParen p.Name && endsParen p.Name then buildFoundingYears l
          else fyUpdate (buildFoundingYears l) p.Name p.FromYear := by
        simp [buildFoundingYears, List.foldl_append]
      by_cases hpn : p.Name = name
      · have hfil : (l ++ [p]).filter (fun q => q.Name = name) =
            l.filter (fun q => q.Name = name) ++ [p] := by
          simp [List.filter_append, hpn]
        have hne2 : ¬((startsParen p.Name && endsParen p.Name) = true) := by
          rw [hpn, hnp]; simp
        by_cases hl : l.filter (fun q => q.Name = name) = []
        · rw [hl, if_pos rfl] at ih
          rw [hstep, if_neg hne2, hpn, fyUpdate_jsGet_eq, ih]
          dsimp only
          rw [hfil, hl, List.nil_append, if_neg (List.cons_ne_nil p [])]
          unfold minFromFor
          rw [hfil, hl, List.nil_append]
          simp [jsMinFold]
        · rw [if_neg hl] at ih
          rw [hstep, if_neg hne2, hpn, fyUpdate_jsGet_eq, ih]
          dsimp only
          rw [hfil, if_neg (by simp)]
          unfold minFromFor
          rw [hfil, List.map_append, List.map_singleton]
          rw [jsMinFold_concat _ _ (fun hc => hl (List.map_eq_nil_iff.1 hc))]
      · have hfil : (l ++ [p]).filter (fun q => q.Name = name) =
            l.filter (fun q => q.Name = name) := by
          simp [List.filter_append, hpn]
        have hmf : minFromFor (l ++ [p]) name = minFromFor l name := by
          unfold minFromFor
          rw [hfil]
        rw [hstep, hfil, hmf]
        by_cases hpp : (startsParen p.Name && endsParen p.Name) = true
        · rw [if_pos hpp]
          exact ih
        · rw [if_neg hpp, fyUpdate_jsGet_ne _ _ _ _ (fun hc => hpn hc.symm)]
          exact ih

/-! ## Claim theorems -/

/-- C5.  The temporal resolver returns `null` (an expected no-data outcome,
not an exception) for every query year strictly before the city's attested
minimum. -/
theorem resolver_null_before_minYear (city : City) (year : ℤ)
    (h : year < city.minYear) :
    getPopulationForYear city year = none := by
  unfold getPopulationForYear
  simp [h]

/-- Witness for C5: scenario C, the city attested from `-100` queried at
`-150`. -/
theorem resolver_null_before_minYear_witness :
    getPopulationForYear scenarioCity (-150) = none :=
  resolver_null_before_minYear scenarioCity (-150) (by decide)

/-- C4.  With no exact key, a query year at/after the attested minimum, and a
nearest past attested year `py` at gap `g = year - py ≤ 500`, the resolver
returns the past value unchanged, source year `py`, the gap field `g`, and
the confidence tier `interpolated`/`estimated`/`projected` according to
`g ≤ 50` / `g ≤ 200` / otherwise. -/
theorem resolver_past_value_and_tiers (city : City) (year py v g : ℤ)
    (hmin : city.minYear ≤ year)
    (hnoexact : jsGet city.populations year = none)
    (hmem : py ∈ city.populations.map Prod.fst)
    (hlt : py < year)
    (hnear : ∀ k ∈ city.populations.map Prod.fst, k < year → k ≤ py)
    (hval : jsGet city.populations py = some v)
    (hg : g = year - py) (hle : g ≤ 500) :
    getPopulationForYear city year =
      some ⟨v, py,
        if g ≤ 50 then "interpolated" else if g ≤ 200 then "estimated" else "projected",
        some g⟩ := by
  subst hg
  unfold getPopulationForYear
  have hnl : ¬year < city.minYear := not_lt.2 hmin
  have hperm : ((city.populations.map Prod.fst).insertionSort (· ≤ ·)).Perm
      (city.populations.map Prod.fst) := List.perm_insertionSort _ _
  have hsort : ((city.populations.map Prod.fst).insertionSort (· ≤ ·)).Sorted (· ≤ ·) :=
    List.sorted_insertionSort _ _
  have hpast : (((city.populations.map Prod.fst).insertionSort (· ≤ ·)).foldl
      (pastFutureStep year) (none, none)).1 = some py := by
    rw [foldl_pastFutureStep_fst]
    exact foldl_past_max year py _ hsort (hperm.mem_iff.2 hmem) hlt
      (fun k hk => hnear k (hperm.mem_iff.1 hk)) none
  have hgap : ¬year - py > 500 := by omega
  simp only [hnl, if_false, hnoexact, hpast, hval, if_neg hgap, Option.getD_some]

/-- Witness for C4: scenario B, `populations={-100: 5000, 200: 20000}` at
query year 50 gives value 5000, source year -100, confidence `estimated`,
gap 150. -/
theorem resolver_past_value_and_tiers_witness :
    getPopulationForYear scenarioCity 50 = some ⟨5000, -100, "estimated", some 150⟩ := by
  have h := resolver_past_value_and_tiers scenarioCity 50 (-100) 5000 150
    (by decide) (by decide) (by decide) (by decide) (by decide) (by decide) (by decide)
    (by decide)
  simpa using h

/-- C3 counterexample.  The visible set used by the metrics precompute pass
(`preloadGraphData`) applies only the year-range test: the
parenthesis-wrapped composite record `"(Wrapped Empire)"`, valid over
`[0,100]`, is included at year 50, contradicting the claim that no visible
set ever contains a parenthesis-wrapped name. -/
theorem preload_includes_paren_cex :
    preloadVisible 50 [parenPolity] = [parenPolity] ∧
      startsParen parenPolity.Name = true ∧ endsParen parenPolity.Name = true := by
  refine ⟨by decide, by decide, by decide⟩

/-- C3 amended.  The `updateMap` visibility filter returns exactly the
entities with `validFrom ≤ year ≤ validTo` whose name is not
parenthesis-wrapped; the metrics precompute pass's filter applies only the
year-range test and therefore can include parenthesis-wrapped entities. -/
theorem visibility_filter_spec (year : ℤ) (ps : List Polity) (p : Polity) :
    (p ∈ updateMapVisible year ps ↔
      p ∈ ps ∧ p.FromYear ≤ year ∧ year ≤ p.ToYear ∧
        ¬(startsParen p.Name = true ∧ endsParen p.Name = true)) ∧
    (p ∈ preloadVisible year ps ↔ p ∈ ps ∧ p.FromYear ≤ year ∧ year ≤ p.ToYear) := by
  constructor
  · simp only [updateMapVisible, List.mem_filter]
    constructor
    · rintro ⟨hm, hb⟩
      by_cases hp : startsParen p.Name && endsParen p.Name
      · rw [if_pos hp] at hb; exact absurd hb (by simp)
      · rw [if_neg hp] at hb
        refine ⟨hm, ?_, ?_, ?_⟩
        · exact of_decide_eq_true (Bool.and_elim_left hb)
        · exact of_decide_eq_true (Bool.and_elim_right hb)
        · simpa [Bool.and_eq_true] using hp
    · rintro ⟨hm, h1, h2, h3⟩
      refine ⟨hm, ?_⟩
      have hp : ¬(startsParen p.Name && endsParen p.Name) = true := by
        simpa [Bool.and_eq_true] using h3
      rw [if_neg hp]
      simp [h1, h2]
  · simp only [preloadVisible, List.mem_filter]
    constructor
    · rintro ⟨hm, hb⟩
      exact ⟨hm, of_decide_eq_true (Bool.and_elim_left hb),
        of_decide_eq_true (Bool.and_elim_right hb)⟩
    · rintro ⟨hm, h1, h2⟩
      simp [hm, h1, h2]

/-- C9 counterexample.  On a `null`/`undefined` geometry both kernel
functions throw a `TypeError` (the `.type` access on `null`) instead of
returning `false`/`null`. -/
theorem geometry_null_throws_cex :
    pointInGeometryE 0 0 .jsNull 0 = .error () ∧ getCentroidE .jsNull = .error () := by
  exact ⟨rfl, rfl⟩

/-- C9 amended.  For malformed geometry that is a non-null object the kernel
functions return `false`/`null` without throwing — `pointInGeometry` on an
unknown geometry type or an empty `MultiPolygon` coordinate list, and
`getCentroid` on an unknown type, an empty `Polygon` coordinate list, or an
empty `MultiPolygon` coordinate list — but a `null`/`undefined` geometry
throws a `TypeError` in both, and `pointInGeometry` also throws on a
`Polygon` whose coordinate array is empty. -/
theorem geometry_malformed_results (lon lat tol : ℚ) :
    pointInGeometryE lon lat .other tol = .ok false ∧
    pointInGeometryE lon lat (.multi []) tol = .ok false ∧
    getCentroidE .other = .ok none ∧
    getCentroidE (.poly []) = .ok none ∧
    getCentroidE (.multi []) = .ok none ∧
    pointInGeometryE lon lat .jsNull tol = .error () ∧
    getCentroidE .jsNull = .error () ∧
    pointInGeometryE lon lat (.poly []) tol = .error () := by
  refine ⟨?_, ?_, rfl, rfl, rfl, rfl, rfl, rfl⟩
  · unfold pointInGeometryE pointInGeometryExact distSqToGeometryEdge
    by_cases h : tol > 0
    · simp [h, Bind.bind, Except.bind, pure, Except.pure, top_le_iff, WithTop.some_eq_coe, WithTop.mul_ne_top, WithTop.coe_ne_top]
    · simp [h, Bind.bind, Except.bind, pure, Except.pure]
  · unfold pointInGeometryE pointInGeometryExact distSqToGeometryEdge
    by_cases h : tol > 0
    · simp [h, Bind.bind, Except.bind, pure, Except.pure, top_le_iff, WithTop.some_eq_coe, WithTop.mul_ne_top, WithTop.coe_ne_top]
    · simp [h, Bind.bind, Except.bind, pure, Except.pure]

/-- C7.  For every non-parenthesised name occurring in the dataset, the
cached founding year is at most every fragment's `FromYear` for that name
and is attained by one of them (i.e. it is the minimum). -/
theorem foundingYear_is_min (ps : List Polity) (name : String)
    (hnp : (startsParen name && endsParen name) = false)
    (hex : ∃ p ∈ ps, p.Name = name) :
    ∃ fy, jsGet (buildFoundingYears ps) name = some fy ∧
      (∀ p ∈ ps, p.Name = name → fy ≤ p.FromYear) ∧
      (∃ p ∈ ps, p.Name = name ∧ p.FromYear = fy) := by
  obtain ⟨q, hq, hqn⟩ := hex
  have hfil : ¬ps.filter (fun p => p.Name = name) = [] := by
    intro hc
    have : q ∈ ps.filter (fun p => p.Name = name) := List.mem_filter.2 ⟨hq, by simp [hqn]⟩
    rw [hc] at this
    exact List.not_mem_nil q this
  refine ⟨minFromFor ps name, ?_, ?_, ?_⟩
  · rw [buildFoundingYears_lookup ps name hnp, if_neg hfil]
  · intro p hp hpn
    apply jsMinFold_le
    exact List.mem_map_of_mem _ (List.mem_filter.2 ⟨hp, by simp [hpn]⟩)
  · have hmem : minFromFor ps name ∈
        (ps.filter (fun p => p.Name = name)).map (fun p => p.FromYear) :=
      jsMinFold_mem _ (fun hc => hfil (List.map_eq_nil_iff.1 hc))
    obtain ⟨p, hpmem, hpeq⟩ := List.mem_map.1 hmem
    have hpf := List.mem_filter.1 hpmem
    exact ⟨p, hpf.1, by simpa using hpf.2, hpeq⟩

/-- Witness for C7: dataset with two "Aksum" fragments founded in years
-1000 and 0; the cached founding year is -1000, minimal and attained. -/
theorem foundingYear_is_min_witness :
    ∃ fy, jsGet (buildFoundingYears [fragEarly, fragLate]) "Aksum" = some fy ∧
      (∀ p ∈ [fragEarly, fragLate], p.Name = "Aksum" → fy ≤ p.FromYear) ∧
      (∃ p ∈ [fragEarly, fragLate], p.Name = "Aksum" ∧ p.FromYear = fy) :=
  foundingYear_is_min [fragEarly, fragLate] "Aksum" (by decide)
    ⟨fragEarly, by simp, by decide⟩

/-- C6.  In the location-history output over two same-name point-containing
fragments (the earlier one first), a gap `next.validFrom - previous.validTo`
of at most 5 years merges them into one interval whose `toYear` is the max
of the two, while a gap greater than 5 years yields two distinct entries. -/
theorem history_merge_rule (lon lat : ℚ) (p1 p2 : Polity)
    (hn : p1.Name = p2.Name)
    (hnp : startsParen p1.Name = false)
    (h1 : pointInGeometryE lon lat p1.geometry 0 = .ok true)
    (h2 : pointInGeometryE lon lat p2.geometry 0 = .ok true)
    (hord : p1.FromYear ≤ p2.FromYear)
    (hkey : ¬(p1.FromYear = p2.FromYear ∧ p1.ToYear = p2.ToYear)) :
    (p2.FromYear - p1.ToYear ≤ 5 →
      getLocationHistory lon lat [p1, p2] =
        .ok [⟨p1.Name, p1.FromYear, max p1.ToYear p2.ToYear, p1.Area⟩]) ∧
    (5 < p2.FromYear - p1.ToYear →
      getLocationHistory lon lat [p1, p2] =
        .ok [⟨p1.Name, p1.FromYear, p1.ToYear, p1.Area⟩,
          ⟨p2.Name, p2.FromYear, p2.ToYear, p2.Area⟩]) := by
  have hnp2 : startsParen p2.Name = false := hn ▸ hnp
  have hkeymem : ((p2.Name, p2.FromYear, p2.ToYear) : String × ℤ × ℤ) ∉
      [((p1.Name, p1.FromYear, p1.ToYear) : String × ℤ × ℤ)] := by
    simp only [List.mem_singleton, Prod.mk.injEq, not_and]
    intro _ hf ht
    exact hkey ⟨hf.symm, ht.symm⟩
  have hsorted : [p1, p2].insertionSort (fun a b => a.FromYear ≤ b.FromYear) = [p1, p2] := by
    simp [List.insertionSort, List.orderedInsert, hord]
  have hcollect : collectHistory lon lat [p1, p2] [] =
      .ok [⟨p1.Name, p1.FromYear, p1.ToYear, p1.Area⟩,
        ⟨p2.Name, p2.FromYear, p2.ToYear, p2.Area⟩] := by
    simp only [collectHistory, hnp, hnp2, Bool.false_eq_true, if_false, h1, h2,
      Bind.bind, Except.bind, List.not_mem_nil, if_true, if_false, hkeymem,
      pure, Except.pure]
  have hsorted2 : ([(⟨p1.Name, p1.FromYear, p1.ToYear, p1.Area⟩ : HistEntry),
      ⟨p2.Name, p2.FromYear, p2.ToYear, p2.Area⟩].insertionSort
        (fun a b => a.fromYear ≤ b.fromYear)) =
      [⟨p1.Name, p1.FromYear, p1.ToYear, p1.Area⟩,
        ⟨p2.Name, p2.FromYear, p2.ToYear, p2.Area⟩] := by
    simp [List.insertionSort, List.orderedInsert, hord]
  constructor
  · intro hgap
    unfold getLocationHistory
    rw [hsorted]
    simp only [hcollect, Bind.bind, Except.bind, hsorted2, List.foldl_cons, List.foldl_nil,
      mergeStep, List.getLast?_singleton, List.getLast?_nil]
    rw [if_pos ⟨hn, by omega⟩]
    simp [pure, Except.pure]
  · intro hgap
    unfold getLocationHistory
    rw [hsorted]
    simp only [hcollect, Bind.bind, Except.bind, hsorted2, List.foldl_cons, List.foldl_nil,
      mergeStep, List.getLast?_singleton, List.getLast?_nil]
    rw [if_neg (fun hc => absurd hc.2 (by omega))]
    simp [pure, Except.pure]

/-- The origin lies inside the unit-square test geometry. -/
theorem sqGeom_contains_origin : pointInGeometryE 0 0 sqGeom 0 = .ok true := by
  norm_num [pointInGeometryE, pointInGeometryExact, sqGeom, pointInPolygon, pipPairs,
    pipToggle, sqRing, List.rotate, bind, Except.bind, pure, Except.pure]

/-- Witness for C6: scenario D, the Kingdom X fragments `[100,150]` and
`[153,200]` (gap 3) merge into the single interval `[100,200]`. -/
theorem history_merge_rule_witness :
    getLocationHistory 0 0 [kingdomX1, kingdomX2] =
      .ok [⟨"Kingdom X", 100, 200, some 1000⟩] := by
  have h := (history_merge_rule 0 0 kingdomX1 kingdomX2 rfl (by decide)
    sqGeom_contains_origin sqGeom_contains_origin (by decide) (by decide)).1 (by decide)
  simpa [kingdomX1, kingdomX2] using h

/-! ## Aggregate-metrics helper lemmas: characterising the `civData` fold -/

theorem visNames_concat (l : List Polity) (p : Polity) :
    visNames (l ++ [p]) =
      if p.Name ∈ visNames l then visNames l else visNames l ++ [p.Name] := by
  simp [visNames, List.foldl_append]

theorem visNames_aux_mem (vs : List Polity) :
    ∀ (acc : List String) (n : String),
      (n ∈ vs.foldl (fun acc p => if p.Name ∈ acc then acc else acc ++ [p.Name]) acc ↔
        n ∈ acc ∨ ∃ q ∈ vs, q.Name = n) := by
  induction vs with
  | nil => intro acc n; simp
  | cons p t ih =>
      intro acc n
      simp only [List.foldl_cons]
      by_cases hp : p.Name ∈ acc
      · rw [if_pos hp, ih]
        constructor
        · rintro (h | ⟨q, hq, hqn⟩)
          · exact Or.inl h
          · exact Or.inr ⟨q, List.mem_cons_of_mem _ hq, hqn⟩
        · rintro (h | ⟨q, hq, hqn⟩)
          · exact Or.inl h
          · rcases List.mem_cons.1 hq with h2 | h2
            · subst h2; exact Or.inl (hqn ▸ hp)
            · exact Or.inr ⟨q, h2, hqn⟩
      · rw [if_neg hp, ih]
        constructor
        · rintro (h | ⟨q, hq, hqn⟩)
          · rcases List.mem_append.1 h with h2 | h2
            · exact Or.inl h2
            · exact Or.inr ⟨p, List.mem_cons_self _ _, (List.mem_singleton.1 h2).symm⟩
          · exact Or.inr ⟨q, List.mem_cons_of_mem _ hq, hqn⟩
        · rintro (h | ⟨q, hq, hqn⟩)
          · exact Or.inl (List.mem_append_left _ h)
          · rcases List.mem_cons.1 hq with h2 | h2
            · subst h2
              exact Or.inl (List.mem_append_right _ (by simp [hqn]))
            · exact Or.inr ⟨q, h2, hqn⟩

theorem visNames_mem (vs : List Polity) (n : String) :
    n ∈ visNames vs ↔ ∃ q ∈ vs, q.Name = n := by
  simpa [visNames] using visNames_aux_mem vs [] n

theorem visNames_aux_nodup (vs : List Polity) :
    ∀ acc : List String, acc.Nodup →
      (vs.foldl (fun acc p => if p.Name ∈ acc then acc else acc ++ [p.Name]) acc).Nodup := by
  induction vs with
  | nil => intro acc h; exact h
  | cons p t ih =>
      intro acc h
      simp only [List.foldl_cons]
      by_cases hp : p.Name ∈ acc
      · rw [if_pos hp]; exact ih acc h
      · rw [if_neg hp]
        exact ih _ (by simp [List.nodup_append, h, hp])

theorem visNames_nodup (vs : List Polity) : (visNames vs).Nodup :=
  visNames_aux_nodup vs [] List.nodup_nil

theorem sumAreaFor_concat (l : List Polity) (p : Polity) (n : String) :
    sumAreaFor (l ++ [p]) n =
      sumAreaFor l n + (if p.Name = n then p.Area.getD 0 else 0) := by
  unfold sumAreaFor
  rw [List.filter_append]
  by_cases h : p.Name = n
  · simp [h]
  · simp [h]

theorem sumAreaFor_absent (vs : List Polity) (n : String)
    (h : ¬∃ q ∈ vs, q.Name = n) : sumAreaFor vs n = 0 := by
  unfold sumAreaFor
  rw [List.filter_eq_nil_iff.2 fun a ha => by
    simp only [decide_eq_true_eq]
    exact fun hc => h ⟨a, ha, hc⟩]
  simp

theorem minFromFor_concat_ne (l : List Polity) (p : Polity) (n : String)
    (h : ¬p.Name = n) : minFromFor (l ++ [p]) n = minFromFor l n := by
  unfold minFromFor
  rw [List.filter_append]
  simp [h]

theorem minFromFor_concat_mem (l : List Polity) (p : Polity) (n : String)
    (hex : ∃ q ∈ l, q.Name = n) (hp : p.Name = n) :
    minFromFor (l ++ [p]) n = min (minFromFor l n) p.FromYear := by
  obtain ⟨q, hq, hqn⟩ := hex
  have hfil : ¬l.filter (fun q => q.Name = n) = [] := by
    intro hc
    have : q ∈ l.filter (fun r => r.Name = n) := List.mem_filter.2 ⟨hq, by simp [hqn]⟩
    rw [hc] at this
    exact List.not_mem_nil q this
  unfold minFromFor
  have hfone : (([p] : List Polity).filter (fun q => q.Name = n)) = [p] := by
    simp [hp]
  rw [List.filter_append, hfone, List.map_append, List.map_singleton]
  exact jsMinFold_concat _ _ (fun hc => hfil (List.map_eq_nil_iff.1 hc))

theorem minFromFor_concat_new (l : List Polity) (p : Polity)
    (h : ¬∃ q ∈ l, q.Name = p.Name) : minFromFor (l ++ [p]) p.Name = p.FromYear := by
  unfold minFromFor
  rw [List.filter_append, List.filter_eq_nil_iff.2 fun a ha => by
    simp only [decide_eq_true_eq]
    exact fun hc => h ⟨a, ha, hc⟩]
  simp [jsMinFold]

theorem jsGet_map_keyed {β : Type} (names : List String) (f : String → β) (k : String) :
    jsGet (names.map (fun n => (n, f n))) k = if k ∈ names then some (f k) else none := by
  induction names with
  | nil => simp [jsGet]
  | cons a t ih =>
      simp only [List.map_cons, jsGet]
      by_cases h : a = k
      · simp [h]
      · rw [if_neg h, ih]
        have hk : ¬k = a := fun hc => h hc.symm
        by_cases h2 : k ∈ t
        · simp [h2, hk]
        · simp [h2, hk]

/-- The `civData` object built by `calculateMetricsFast` holds, in
first-occurrence order, one entry per distinct visible name carrying the
summed `Area || 0` and the minimum `FromYear` over that name's visible
fragments. -/
theorem civData_eq (vs : List Polity) :
    vs.foldl civStep [] =
      (visNames vs).map
        (fun n => (n, (⟨sumAreaFor vs n, minFromFor vs n⟩ : CivEntry))) := by
  induction vs using List.reverseRecOn with
  | nil => simp [visNames]
  | append_singleton l p ih =>
      rw [List.foldl_append, List.foldl_cons, List.foldl_nil, ih]
      unfold civStep
      by_cases hmem : p.Name ∈ visNames l
      · have hex : ∃ q ∈ l, q.Name = p.Name := (visNames_mem l p.Name).1 hmem
        simp only [jsGet_map_keyed, if_pos hmem, List.map_map, visNames_concat]
        apply List.map_congr_left
        intro n hn
        by_cases hpn : p.Name = n
        · subst hpn
          simp [Function.comp_apply, sumAreaFor_concat, minFromFor_concat_mem _ _ _ hex rfl]
        · have hnp2 : ¬n = p.Name := fun hc => hpn hc.symm
          simp only [Function.comp_apply, if_neg hnp2]
          rw [sumAreaFor_concat, if_neg hpn, add_zero, minFromFor_concat_ne _ _ _ hpn]
      · have hex : ¬∃ q ∈ l, q.Name = p.Name := fun hc => hmem ((visNames_mem l p.Name).2 hc)
        simp only [jsGet_map_keyed, if_neg hmem, List.map_append, List.map_map,
          visNames_concat]
        congr 1
        · apply List.map_congr_left
          intro n hn
          have hpn : ¬p.Name = n := fun hc => hmem (by rw [hc]; exact hn)
          have hnp2 : ¬n = p.Name := fun hc => hpn hc.symm
          simp only [Function.comp_apply, if_neg hnp2]
          rw [sumAreaFor_concat, if_neg hpn, add_zero, minFromFor_concat_ne _ _ _ hpn]
        · simp only [List.map_singleton, if_pos rfl]
          rw [sumAreaFor_concat, if_pos rfl, sumAreaFor_absent _ _ hex, zero_add,
            minFromFor_concat_new _ _ hex]
          simp

theorem sum_map_add_q {α : Type} (l : List α) (f g : α → ℚ) :
    (l.map (fun x => f x + g x)).sum = (l.map f).sum + (l.map g).sum := by
  induction l with
  | nil => simp
  | cons a t ih =>
      simp only [List.map_cons, List.sum_cons, ih]
      ring

theorem sum_map_ite_eq_q (l : List String) (k : String) (a : ℚ)
    (hnd : l.Nodup) (hm : k ∈ l) :
    (l.map (fun n => if k = n then a else 0)).sum = a := by
  induction l with
  | nil => simp at hm
  | cons x t ih =>
      rcases List.mem_cons.1 hm with h | h
      · subst h
        simp only [List.map_cons, if_pos rfl, List.sum_cons]
        have hz : ∀ n ∈ t, (if k = n then a else (0 : ℚ)) = 0 := fun n hn =>
          if_neg fun hc => (List.nodup_cons.1 hnd).1 (by rw [hc]; exact hn)
        rw [List.map_congr_left hz]
        simp
      · have hx : ¬k = x := fun hc => (List.nodup_cons.1 hnd).1 (by rw [← hc]; exact h)
        simp only [List.map_cons, if_neg hx, List.sum_cons, zero_add]
        exact ih (List.nodup_cons.1 hnd).2 h

/-- Summing the per-name area totals over the distinct names recovers the
plain sum of `Area || 0` over all fragments: no double counting, no
omission. -/
theorem sum_sumAreaFor (vs : List Polity) :
    ((visNames vs).map (fun n => sumAreaFor vs n)).sum =
      (vs.map (fun p => p.Area.getD 0)).sum := by
  induction vs using List.reverseRecOn with
  | nil => simp [visNames]
  | append_singleton l p ih =>
      rw [visNames_concat]
      by_cases hmem : p.Name ∈ visNames l
      · rw [if_pos hmem]
        have hcg : ∀ n ∈ visNames l, sumAreaFor (l ++ [p]) n =
            sumAreaFor l n + (if p.Name = n then p.Area.getD 0 else 0) :=
          fun n _ => sumAreaFor_concat l p n
        rw [List.map_congr_left hcg, sum_map_add_q, ih,
          sum_map_ite_eq_q _ _ _ (visNames_nodup l) hmem]
        simp
      · rw [if_neg hmem, List.map_append]
        have hex : ¬∃ q ∈ l, q.Name = p.Name := fun hc => hmem ((visNames_mem l p.Name).2 hc)
        have hcg : ∀ n ∈ visNames l, sumAreaFor (l ++ [p]) n = sumAreaFor l n := by
          intro n hn
          have hpn : ¬p.Name = n := fun hc => hmem (by rw [hc]; exact hn)
          rw [sumAreaFor_concat, if_neg hpn, add_zero]
        rw [List.map_congr_left hcg, List.sum_append, ih]
        simp only [List.map_singleton, List.sum_singleton]
        rw [sumAreaFor_concat, if_pos rfl, sumAreaFor_absent _ _ hex, zero_add]
        simp

/-- C2.  `totals.landArea` is exactly the sum of `Area || 0` over the visible
fragment list, each fragment counted once; and in scenario A (a single region
of area 2,000,000 visible at year -200) the metrics give `civilizations = 1`
and `landArea = 2000000`. -/
theorem landArea_sums_exactly :
    (∀ (ws : List WorldStat) (cities : List City) (year : ℤ) (vs : List Polity),
      (calculateMetricsFast ws cities year vs).totals.landArea =
        (vs.map (fun p => p.Area.getD 0)).sum) ∧
    ((calculateMetricsFast [] [] (-200)
        (updateMapVisible (-200) [scenarioRegion])).totals.civilizations = 1 ∧
      (calculateMetricsFast [] [] (-200)
        (updateMapVisible (-200) [scenarioRegion])).totals.landArea = 2000000) := by
  have hgen : ∀ (ws : List WorldStat) (cities : List City) (year : ℤ) (vs : List Polity),
      (calculateMetricsFast ws cities year vs).totals.landArea =
        (vs.map (fun p => p.Area.getD 0)).sum := by
    intro ws cities year vs
    show ((vs.foldl civStep []).map (fun e => e.2.area)).sum = _
    rw [civData_eq, List.map_map]
    exact sum_sumAreaFor vs
  refine ⟨hgen, ?_, ?_⟩
  · have h : updateMapVisible (-200) [scenarioRegion] = [scenarioRegion] := by decide
    rw [h]
    show ((([scenarioRegion] : List Polity).foldl civStep []).length) = 1
    rw [civData_eq]
    simp [visNames, scenarioRegion]
  · have h : updateMapVisible (-200) [scenarioRegion] = [scenarioRegion] := by decide
    rw [h, hgen]
    norm_num [scenarioRegion]

/-- C1 counterexample.  With two "Aksum" fragments (validity `[-1000,-500]`
and `[0,100]`) the cached founding year is -1000, so at year 50 the claimed
`avgAge` is `50 - (-1000) = 1050`; `calculateMetricsFast` instead uses the
minimum `FromYear` over the *visible* fragments only and returns 50. -/
theorem avgAge_ignores_cached_founding_cex :
    (calculateMetricsFast [] [] 50
        (updateMapVisible 50 [fragEarly, fragLate])).totals.avgAge ≠
      claimAvgAge 50 [fragEarly, fragLate]
        (updateMapVisible 50 [fragEarly, fragLate]) := by
  have h : updateMapVisible 50 [fragEarly, fragLate] = [fragLate] := by decide
  have h2 : buildFoundingYears [fragEarly, fragLate] = [("Aksum", -1000)] := by decide
  rw [h]
  have hL : (calculateMetricsFast [] [] 50 [fragLate]).totals.avgAge = 50 := by
    norm_num [calculateMetricsFast, civStep, jsGet, getWorldStatsForYear, fragLate]
  have hR : claimAvgAge 50 [fragEarly, fragLate] [fragLate] = 1050 := by
    unfold claimAvgAge
    simp only [h2]
    norm_num [visNames, fragLate, jsGet]
  rw [hL, hR]
  norm_num

/-- C1 amended.  `totals.avgAge` is the mean, over the distinct visible
names, of `year - minFromYear(name)` where the minimum `FromYear` is taken
over the fragments *visible at the query year* (not over the full dataset's
founding-year cache). -/
theorem avgAge_from_visible_fragments (ws : List WorldStat) (cities : List City)
    (year : ℤ) (vs : List Polity) :
    (calculateMetricsFast ws cities year vs).totals.avgAge =
      ((visNames vs).map (fun n => (year : ℚ) - ((minFromFor vs n : ℤ) : ℚ))).sum /
        ((visNames vs).length : ℚ) := by
  show (if 0 < (vs.foldl civStep []).length then
      (((vs.foldl civStep []).map (fun e => ((year : ℚ) - (e.2.fromYear : ℚ)))).sum) /
        ((vs.foldl civStep []).length : ℚ)
    else 0) = _
  rw [civData_eq, List.map_map, List.length_map]
  by_cases h : 0 < (visNames vs).length
  · rw [if_pos h]
    rfl
  · rw [if_neg h]
    have hnil : visNames vs = [] := List.length_eq_zero.1 (by omega)
    simp [hnil]

/-- Count and population-sum characterisation of the city loop of
`calculateMetricsFast`. -/
theorem cityAgg_foldl (year : ℤ) (cities : List City) :
    ∀ acc : ℕ × ℤ,
      cities.foldl
        (fun (acc : ℕ × ℤ) city =>
          match getPopulationForYear city year with
          | some pd => (acc.1 + 1, acc.2 + pd.pop)
          | none => acc) acc =
      (acc.1 + cities.countP (fun c => (getPopulationForYear c year).isSome),
       acc.2 + (cities.map (fun c =>
          match getPopulationForYear c year with
          | some pd => pd.pop
          | none => 0)).sum) := by
  induction cities with
  | nil => intro acc; simp
  | cons c t ih =>
      intro acc
      rw [List.foldl_cons]
      cases hc : getPopulationForYear c year with
      | none =>
          rw [ih]
          simp [List.countP_cons, hc]
      | some pd =>
          rw [ih]
          simp [List.countP_cons, hc, Prod.ext_iff]
          constructor <;> omega

theorem foldl_max_ge_init (xs : List ℤ) : ∀ x : ℤ, x ≤ xs.foldl max x := by
  induction xs with
  | nil => intro x; simp
  | cons a t ih =>
      intro x
      calc x ≤ max x a := le_max_left _ _
        _ ≤ t.foldl max (max x a) := ih _
        _ = (a :: t).foldl max x := by simp

theorem foldl_max_ge_mem (xs : List ℤ) : ∀ (x y : ℤ), y ∈ xs → y ≤ xs.foldl max x := by
  induction xs with
  | nil => intro x y hy; simp at hy
  | cons a t ih =>
      intro x y hy
      rcases List.mem_cons.1 hy with h | h
      · subst h
        calc y ≤ max x y := le_max_right _ _
          _ ≤ t.foldl max (max x y) := foldl_max_ge_init t _
          _ = (y :: t).foldl max x := by simp
      · simpa using ih (max x a) y h

theorem foldl_max_attained (xs : List ℤ) : ∀ x : ℤ, xs.foldl max x = x ∨ xs.foldl max x ∈ xs := by
  induction xs with
  | nil => intro x; left; rfl
  | cons a t ih =>
      intro x
      have step : (a :: t).foldl max x = t.foldl max (max x a) := by simp
      rcases ih (max x a) with h | h
      · rcases max_choice x a with hc | hc
        · left; rw [step, h, hc]
        · right; rw [step, h, hc]; exact List.mem_cons_self a t
      · right; rw [step]; exact List.mem_cons_of_mem a h

theorem jsMaxInt_spec (l : List ℤ) (m : ℤ) (h : jsMaxInt l = some m) :
    m ∈ l ∧ ∀ v ∈ l, v ≤ m := by
  cases l with
  | nil => simp [jsMaxInt] at h
  | cons x xs =>
      simp only [jsMaxInt, Option.some.injEq] at h
      constructor
      · rcases foldl_max_attained xs x with h2 | h2
        · rw [← h, h2]; exact List.mem_cons_self x xs
        · rw [← h]; exact List.mem_cons_of_mem x h2
      · intro v hv
        rcases List.mem_cons.1 hv with h2 | h2
        · subst h2; rw [← h]; exact foldl_max_ge_init xs v
        · rw [← h]; exact foldl_max_ge_mem xs x v h2

/-- C10.  The loaded city collection is exactly the source cities whose
populations object is present and whose maximum recorded population reaches
100,000; and the city-derived aggregates (`totals.cities`,
`totals.urbanPop`) of the metrics engine range over exactly that
collection. -/
theorem cities_filtered_at_load :
    (∀ (src : List RawCity) (c : City),
      c ∈ loadCities src ↔
        ∃ r ∈ src, ∃ l, r.populations = some l ∧ c = ⟨l, r.minYear⟩ ∧
          ∃ m ∈ l.map Prod.snd, (100000 : ℤ) ≤ m ∧ ∀ v ∈ l.map Prod.snd, v ≤ m) ∧
    (∀ (src : List RawCity) (ws : List WorldStat) (year : ℤ) (vs : List Polity),
      (calculateMetricsFast ws (loadCities src) year vs).totals.cities =
        (loadCities src).countP (fun c => (getPopulationForYear c year).isSome) ∧
      (calculateMetricsFast ws (loadCities src) year vs).totals.urbanPop =
        ((loadCities src).map (fun c =>
          match getPopulationForYear c year with
          | some pd => pd.pop
          | none => 0)).sum) := by
  constructor
  · intro src c
    constructor
    · intro hc
      obtain ⟨r, hr, hrc⟩ := List.mem_map.1 hc
      have hrf := List.mem_filter.1 hr
      refine ⟨r, hrf.1, ?_⟩
      have hk := hrf.2
      unfold keepCity at hk
      cases hp : r.populations with
      | none => rw [hp] at hk; simp at hk
      | some l =>
          rw [hp] at hk
          dsimp only at hk
          refine ⟨l, rfl, ?_, ?_⟩
          · rw [← hrc, hp]
            rfl
          · cases hj : jsMaxInt (l.map Prod.snd) with
            | none => rw [hj] at hk; simp at hk
            | some m =>
                rw [hj] at hk
                have hm100 : (100000 : ℤ) ≤ m := by simpa using hk
                obtain ⟨hmem, hmax⟩ := jsMaxInt_spec _ _ hj
                exact ⟨m, hmem, hm100, hmax⟩
    · rintro ⟨r, hr, l, hp, hceq, m, hm, hm100, hmax⟩
      have hne : l.map Prod.snd ≠ [] := fun hc0 => by rw [hc0] at hm; exact List.not_mem_nil m hm
      have hkeep : keepCity r = true := by
        unfold keepCity
        rw [hp]
        dsimp only
        cases hj : jsMaxInt (l.map Prod.snd) with
        | none =>
            cases hvals : l.map Prod.snd with
            | nil => exact absurd hvals hne
            | cons x xs => rw [hvals] at hj; simp [jsMaxInt] at hj
        | some m2 =>
            have hmm : m ≤ m2 := ((jsMaxInt_spec _ _ hj).2) m hm
            simp only [decide_eq_true_eq]
            omega
      refine List.mem_map.2 ⟨r, List.mem_filter.2 ⟨hr, hkeep⟩, ?_⟩
      rw [hceq, hp]
      rfl
  · intro src ws year vs
    constructor
    · show ((loadCities src).foldl _ ((0 : ℕ), (0 : ℤ))).1 = _
      rw [cityAgg_foldl]
      simp
    · show ((loadCities src).foldl _ ((0 : ℕ), (0 : ℤ))).2 = _
      rw [cityAgg_foldl]
      simp

/-! ## Ray-casting parity: a point strictly outside the bounding box is
outside the polygon -/

theorem pointInPolygon_eq_foldl_bne (p : Pt) (r : List Pt) :
    pointInPolygon p r =
      ((pipPairs r).map (pipToggle p)).foldl (fun i t => i != t) false := by
  unfold pointInPolygon
  rw [List.foldl_map]
  have hf : (fun (inside : Bool) e => if pipToggle p e then !inside else inside) =
      fun (inside : Bool) e => inside != pipToggle p e := by
    funext i e
    cases pipToggle p e <;> cases i <;> rfl
  rw [hf]

theorem boolZ_bne (a b : Bool) : boolZ (a != b) = boolZ a + boolZ b := by
  cases a <;> cases b <;> decide

theorem boolZ_eq_zero (b : Bool) (h : boolZ b = 0) : b = false := by
  cases b
  · rfl
  · exact absurd h (by decide)

theorem boolZ_foldl_bne (L : List Bool) :
    ∀ b : Bool, boolZ (L.foldl (fun i t => i != t) b) = boolZ b + (L.map boolZ).sum := by
  induction L with
  | nil => intro b; simp
  | cons a t ih =>
      intro b
      rw [List.foldl_cons, ih, boolZ_bne, List.map_cons, List.sum_cons, add_assoc]

theorem sum_map_add_gen {α M : Type} [AddCommMonoid M] (l : List α) (f g : α → M) :
    (l.map (fun x => f x + g x)).sum = (l.map f).sum + (l.map g).sum := by
  induction l with
  | nil => simp
  | cons a t ih =>
      simp only [List.map_cons, List.sum_cons, ih]
      rw [add_add_add_comm]

theorem pip_parity (p : Pt) (r : List Pt) (g : Pt → Bool)
    (htog : ∀ e ∈ pipPairs r, pipToggle p e = (g e.1 != g e.2)) :
    pointInPolygon p r = false := by
  apply boolZ_eq_zero
  rw [pointInPolygon_eq_foldl_bne, boolZ_foldl_bne]
  have hz : boolZ false = 0 := rfl
  rw [hz, zero_add, List.map_map]
  have hcg : ∀ e ∈ pipPairs r, (boolZ ∘ pipToggle p) e = boolZ (g e.1) + boolZ (g e.2) := by
    intro e he
    simp only [Function.comp_apply, htog e he, boolZ_bne]
  rw [List.map_congr_left hcg, sum_map_add_gen]
  have hlen : r.length ≤ (r.rotate (r.length - 1)).length := by
    rw [List.length_rotate]
  have hfst : (pipPairs r).map (fun e => boolZ (g e.1)) = r.map (fun v => boolZ (g v)) := by
    unfold pipPairs
    rw [show (fun (e : Pt × Pt) => boolZ (g e.1)) = (fun v => boolZ (g v)) ∘ Prod.fst from rfl]
    rw [← List.map_map, List.map_fst_zip _ _ hlen]
  have hsnd : ((pipPairs r).map (fun e => boolZ (g e.2))).sum =
      (r.map (fun v => boolZ (g v))).sum := by
    unfold pipPairs
    rw [show (fun (e : Pt × Pt) => boolZ (g e.2)) = (fun v => boolZ (g v)) ∘ Prod.snd from rfl]
    rw [← List.map_map, List.map_snd_zip _ _ (le_of_eq (List.length_rotate _ _))]
    exact List.Perm.sum_eq (List.Perm.map _ (List.rotate_perm r (r.length - 1)))
  rw [hfst, hsnd]
  have h2 : (2 : ZMod 2) = 0 := by decide
  calc (r.map (fun v => boolZ (g v))).sum + (r.map (fun v => boolZ (g v))).sum
      = 2 * (r.map (fun v => boolZ (g v))).sum := (two_mul _).symm
    _ = 0 := by rw [h2, zero_mul]

theorem pointInPolygon_of_no_toggle (p : Pt) (r : List Pt)
    (h : ∀ e ∈ pipPairs r, pipToggle p e = false) :
    pointInPolygon p r = false := by
  apply boolZ_eq_zero
  rw [pointInPolygon_eq_foldl_bne, boolZ_foldl_bne]
  have hcg : ∀ e ∈ pipPairs r, (boolZ ∘ pipToggle p) e = (fun _ => (0 : ZMod 2)) e := by
    intro e he
    simp only [Function.comp_apply, h e he]
    rfl
  rw [List.map_map, List.map_congr_left hcg]
  simp [boolZ]

/-- When the scan line at height `y` crosses the segment (the endpoints'
latitudes straddle `y`), the ray-intersection abscissa computed by the JS
code lies between the endpoints' longitudes. -/
theorem intersectX_bounds (xi yi xj yj y : ℚ)
    (h : (yj ≤ y ∧ y < yi) ∨ (yi ≤ y ∧ y < yj)) :
    min xi xj ≤ (xj - xi) * (y - yi) / (yj - yi) + xi ∧
      (xj - xi) * (y - yi) / (yj - yi) + xi ≤ max xi xj := by
  have h01 : 0 ≤ (y - yi) / (yj - yi) ∧ (y - yi) / (yj - yi) ≤ 1 := by
    rcases h with ⟨h1, h2⟩ | ⟨h1, h2⟩
    · have hrw : (y - yi) / (yj - yi) = (yi - y) / (yi - yj) := by
        rw [show y - yi = -(yi - y) by ring, show yj - yi = -(yi - yj) by ring,
          neg_div_neg_eq]
      have hd : 0 < yi - yj := by linarith
      refine ⟨?_, ?_⟩
      · rw [hrw]
        exact div_nonneg (by linarith) (le_of_lt hd)
      · rw [hrw, div_le_one hd]
        linarith
    · have hd : 0 < yj - yi := by linarith
      refine ⟨?_, ?_⟩
      · exact div_nonneg (by linarith) (le_of_lt hd)
      · rw [div_le_one hd]
        linarith
  obtain ⟨ht0, ht1⟩ := h01
  have hexpr : (xj - xi) * (y - yi) / (yj - yi) + xi =
      xi + (xj - xi) * ((y - yi) / (yj - yi)) := by
    rw [mul_div_assoc]
    ring
  rw [hexpr]
  set t : ℚ := (y - yi) / (yj - yi)
  constructor
  · rcases le_total xi xj with hx | hx
    · have h0 : 0 ≤ (xj - xi) * t := mul_nonneg (by linarith) ht0
      calc min xi xj ≤ xi := min_le_left _ _
        _ ≤ xi + (xj - xi) * t := by linarith
    · have h0 : (xj - xi) * 1 ≤ (xj - xi) * t :=
        mul_le_mul_of_nonpos_left ht1 (by linarith)
      calc min xi xj ≤ xj := min_le_right _ _
        _ ≤ xi + (xj - xi) * t := by linarith [h0]
  · rcases le_total xi xj with hx | hx
    · have h0 : (xj - xi) * t ≤ (xj - xi) * 1 :=
        mul_le_mul_of_nonneg_left ht1 (by linarith)
      calc xi + (xj - xi) * t ≤ xj := by linarith [h0]
        _ ≤ max xi xj := le_max_right _ _
    · have h0 : (xj - xi) * t ≤ 0 := mul_nonpos_iff.2 (Or.inr ⟨by linarith, ht0⟩)
      calc xi + (xj - xi) * t ≤ xi := by linarith
        _ ≤ max xi xj := le_max_left _ _

/-- Under the straddle test of `pipToggle` the endpoint latitudes bracket the
query latitude. -/
theorem pipToggle_straddle (p : Pt) (e : Pt × Pt)
    (hA : (decide (e.1.2 > p.2) != decide (e.2.2 > p.2)) = true) :
    (e.2.2 ≤ p.2 ∧ p.2 < e.1.2) ∨ (e.1.2 ≤ p.2 ∧ p.2 < e.2.2) := by
  by_cases h1 : p.2 < e.1.2 <;> by_cases h2 : p.2 < e.2.2
  · simp [h1, h2] at hA
  · exact Or.inl ⟨by linarith, h1⟩
  · exact Or.inr ⟨by linarith, h2⟩
  · simp [h1, h2] at hA

theorem pipToggle_false_of_lat_lt (p : Pt) (e : Pt × Pt)
    (h1 : p.2 < e.1.2) (h2 : p.2 < e.2.2) : pipToggle p e = false := by
  unfold pipToggle
  simp [h1, h2]

theorem pipToggle_false_of_lat_gt (p : Pt) (e : Pt × Pt)
    (h1 : e.1.2 < p.2) (h2 : e.2.2 < p.2) : pipToggle p e = false := by
  unfold pipToggle
  simp [not_lt.2 (le_of_lt h1), not_lt.2 (le_of_lt h2)]

theorem pipToggle_false_of_lon_gt (p : Pt) (e : Pt × Pt)
    (h1 : e.1.1 < p.1) (h2 : e.2.1 < p.1) : pipToggle p e = false := by
  unfold pipToggle
  cases hA : (decide (e.1.2 > p.2) != decide (e.2.2 > p.2)) with
  | false => simp
  | true =>
      have hbnd := (intersectX_bounds e.1.1 e.1.2 e.2.1 e.2.2 p.2
        (pipToggle_straddle p e hA)).2
      have hmax : max e.1.1 e.2.1 < p.1 := max_lt h1 h2
      have hnc : ¬(p.1 < (e.2.1 - e.1.1) * (p.2 - e.1.2) / (e.2.2 - e.1.2) + e.1.1) := by
        linarith
      simp [hnc]

theorem pipToggle_eq_bne_of_lon_lt (p : Pt) (e : Pt × Pt)
    (h1 : p.1 < e.1.1) (h2 : p.1 < e.2.1) :
    pipToggle p e = (decide (e.1.2 > p.2) != decide (e.2.2 > p.2)) := by
  unfold pipToggle
  cases hA : (decide (e.1.2 > p.2) != decide (e.2.2 > p.2)) with
  | false => simp
  | true =>
      have hbnd := (intersectX_bounds e.1.1 e.1.2 e.2.1 e.2.2 p.2
        (pipToggle_straddle p e hA)).1
      have hmin : p.1 < min e.1.1 e.2.1 := lt_min h1 h2
      have hc : p.1 < (e.2.1 - e.1.1) * (p.2 - e.1.2) / (e.2.2 - e.1.2) + e.1.1 := by
        linarith
      simp [hc]

/-- A point strictly outside a ring's vertex range in any of the four
directions fails the even-odd ray-casting test. -/
theorem pointInPolygon_outside (p : Pt) (r : List Pt)
    (h : (∀ v ∈ r, p.1 < v.1) ∨ (∀ v ∈ r, v.1 < p.1) ∨
      (∀ v ∈ r, p.2 < v.2) ∨ (∀ v ∈ r, v.2 < p.2)) :
    pointInPolygon p r = false := by
  have hmem : ∀ e ∈ pipPairs r, e.1 ∈ r ∧ e.2 ∈ r := by
    intro e he
    unfold pipPairs at he
    obtain ⟨a, b⟩ := e
    obtain ⟨h1, h2⟩ := List.of_mem_zip he
    exact ⟨h1, (List.mem_rotate).1 h2⟩
  rcases h with h | h | h | h
  · exact pip_parity p r (fun v => decide (v.2 > p.2)) fun e he =>
      pipToggle_eq_bne_of_lon_lt p e (h _ (hmem e he).1) (h _ (hmem e he).2)
  · exact pointInPolygon_of_no_toggle p r fun e he =>
      pipToggle_false_of_lon_gt p e (h _ (hmem e he).1) (h _ (hmem e he).2)
  · exact pointInPolygon_of_no_toggle p r fun e he =>
      pipToggle_false_of_lat_lt p e (h _ (hmem e he).1) (h _ (hmem e he).2)
  · exact pointInPolygon_of_no_toggle p r fun e he =>
      pipToggle_false_of_lat_gt p e (h _ (hmem e he).1) (h _ (hmem e he).2)

theorem bbox_foldl_spec (vs : List Pt) :
    ∀ bb : BBox,
      ((vs.foldl bboxStep bb).minLon ≤ bb.minLon ∧
        bb.maxLon ≤ (vs.foldl bboxStep bb).maxLon ∧
        (vs.foldl bboxStep bb).minLat ≤ bb.minLat ∧
        bb.maxLat ≤ (vs.foldl bboxStep bb).maxLat) ∧
      ∀ w ∈ vs, (vs.foldl bboxStep bb).minLon ≤ w.1 ∧ w.1 ≤ (vs.foldl bboxStep bb).maxLon ∧
        (vs.foldl bboxStep bb).minLat ≤ w.2 ∧ w.2 ≤ (vs.foldl bboxStep bb).maxLat := by
  induction vs with
  | nil => intro bb; exact ⟨⟨le_refl _, le_refl _, le_refl _, le_refl _⟩, by simp⟩
  | cons v t ih =>
      intro bb
      rw [List.foldl_cons]
      obtain ⟨⟨ha1, ha2, ha3, ha4⟩, hmem⟩ := ih (bboxStep bb v)
      have hstep1 : (bboxStep bb v).minLon ≤ bb.minLon := min_le_left _ _
      have hstep2 : bb.maxLon ≤ (bboxStep bb v).maxLon := le_max_left _ _
      have hstep3 : (bboxStep bb v).minLat ≤ bb.minLat := min_le_left _ _
      have hstep4 : bb.maxLat ≤ (bboxStep bb v).maxLat := le_max_left _ _
      have hv1 : (bboxStep bb v).minLon ≤ v.1 := min_le_right _ _
      have hv2 : v.1 ≤ (bboxStep bb v).maxLon := le_max_right _ _
      have hv3 : (bboxStep bb v).minLat ≤ v.2 := min_le_right _ _
      have hv4 : v.2 ≤ (bboxStep bb v).maxLat := le_max_right _ _
      refine ⟨⟨le_trans ha1 hstep1, le_trans hstep2 ha2,
        le_trans ha3 hstep3, le_trans hstep4 ha4⟩, ?_⟩
      intro w hw
      rcases List.mem_cons.1 hw with hw | hw
      · subst hw
        exact ⟨le_trans ha1 hv1, le_trans hv2 ha2, le_trans ha3 hv3, le_trans hv4 ha4⟩
      · exact hmem w hw

theorem bboxOf_bounds (l : List Pt) (bb : BBox) (h : bboxOf l = some bb) :
    ∀ v ∈ l, bb.minLon ≤ v.1 ∧ v.1 ≤ bb.maxLon ∧ bb.minLat ≤ v.2 ∧ v.2 ≤ bb.maxLat := by
  cases l with
  | nil => simp [bboxOf] at h
  | cons v0 vs =>
      simp only [bboxOf, Option.some.injEq] at h
      subst h
      obtain ⟨⟨ha1, ha2, ha3, ha4⟩, hmem⟩ := bbox_foldl_spec vs ⟨v0.1, v0.1, v0.2, v0.2⟩
      intro v hv
      rcases List.mem_cons.1 hv with hv | hv
      · subst hv
        exact ⟨ha1, ha2, ha3, ha4⟩
      · exact hmem v hv

theorem multi_exact_false (p : Pt) (parts : List (List (List Pt)))
    (h : ∀ part ∈ parts, ∃ r rest, part = r :: rest ∧ pointInPolygon p r = false) :
    pointInGeometryExact p (.multi parts) = .ok false := by
  induction parts with
  | nil => rfl
  | cons part t ih =>
      obtain ⟨r, rest, hpart, hr⟩ := h part (List.mem_cons_self _ _)
      subst hpart
      unfold pointInGeometryExact at ih ⊢
      dsimp only at ih ⊢
      rw [List.foldl_cons]
      simp only [Bind.bind, Except.bind, Bool.false_eq_true, if_false, pure, Except.pure, hr]
      exact ih fun q hq => h q (List.mem_cons_of_mem _ hq)

/-- C8.  For every polygon or multipolygon geometry (each multipolygon part
carrying at least its outer ring) and every point strictly outside the
geometry's bounding box — the min/max over all its vertices — the
containment test at tolerance 0 returns `false`. -/
theorem point_outside_bbox_not_in_geometry (g : GeomInput) (lon lat : ℚ) (bb : BBox)
    (hshape : noEmptyPart g)
    (hbb : bboxOf (vertsOf g) = some bb)
    (hout : lon < bb.minLon ∨ bb.maxLon < lon ∨ lat < bb.minLat ∨ bb.maxLat < lat) :
    pointInGeometryE lon lat g 0 = .ok false := by
  have hverts := bboxOf_bounds _ _ hbb
  have hring : ∀ r : List Pt, (∀ v ∈ r, v ∈ vertsOf g) →
      pointInPolygon (lon, lat) r = false := by
    intro r hsub
    apply pointInPolygon_outside
    rcases hout with h | h | h | h
    · exact Or.inl fun v hv => lt_of_lt_of_le h (hverts v (hsub v hv)).1
    · exact Or.inr (Or.inl fun v hv => lt_of_le_of_lt (hverts v (hsub v hv)).2.1 h)
    · exact Or.inr (Or.inr (Or.inl fun v hv =>
        lt_of_lt_of_le h (hverts v (hsub v hv)).2.2.1))
    · exact Or.inr (Or.inr (Or.inr fun v hv =>
        lt_of_le_of_lt (hverts v (hsub v hv)).2.2.2 h))
  cases g with
  | jsNull => simp [vertsOf, bboxOf] at hbb
  | other => simp [vertsOf, bboxOf] at hbb
  | poly rings =>
      cases rings with
      | nil => simp [vertsOf, bboxOf] at hbb
      | cons r rest =>
          have hr : pointInPolygon (lon, lat) r = false := by
            apply hring
            intro v hv
            exact List.mem_flatten.2 ⟨r, List.mem_cons_self _ _, hv⟩
          unfold pointInGeometryE pointInGeometryExact
          simp [hr, Bind.bind, Except.bind, pure, Except.pure]
  | multi parts =>
      have hexact : pointInGeometryExact (lon, lat) (.multi parts) = .ok false := by
        apply multi_exact_false
        intro part hpart
        cases hpc : part with
        | nil => exact absurd hpc (hshape part hpart)
        | cons r rest =>
            refine ⟨r, rest, rfl, ?_⟩
            apply hring
            intro v hv
            refine List.mem_flatten.2 ⟨part.flatten, List.mem_map_of_mem _ hpart, ?_⟩
            exact List.mem_flatten.2 ⟨r, by rw [hpc]; exact List.mem_cons_self _ _, hv⟩
      unfold pointInGeometryE
      simp [hexact, Bind.bind, Except.bind, pure, Except.pure]

/-- Witness for C8: the point `(10, 10)` lies strictly right of the unit
square's bounding box, and the containment test returns `false`. -/
theorem point_outside_bbox_not_in_geometry_witness :
    pointInGeometryE 10 10 sqGeom 0 = .ok false := by
  have h := point_outside_bbox_not_in_geometry sqGeom 10 10 ⟨-1, 1, -1, 1⟩
    (by trivial) (by decide) (by decide)
  exact h

end CivMap
